import Mathlib

/-!
Verification development for the Widget-Production repository.

The repository contains two Go programs:
* `src/unnamed/part_000` (the 01/14/2019 job-slot implementation built around
  `WidgetProductionConsumptionLine`, `productionLine`, `consumptionLine`), and
* `src/main.go` (the 12/26/2018 counter-based implementation built around
  `widgetProductionLine`).

The slot implementation is embedded below as a small-step transition system.
Every Go channel of that program is represented faithfully:

* `jobChannel := make(chan int, numWidgets)`: prefilled with `1..numWidgets`
  by the coordinator and closed immediately, so it is modelled as the FIFO
  list `jobs` (always closed).  A producer iterating `for i := range jobChannel`
  either pops the head or, when the list is empty, leaves its loop.
* `widgetChannel := make(chan Widget, numWidgets)`: the FIFO list `buf`
  together with the close flag `widgetClosed` and the capacity `total`
  (a send blocks while `buf.length` is not below `total`).
* `quitChannel`, `brokenWidgetChannel`, `doneChannel`: `chan struct{}`
  values that are only ever closed, never sent on, so each one is a single
  monotone Bool (`quitClosed`, `brokenClosed`, `doneClosed`).

Worker pools are modelled by counts of workers in each control location plus
the multiset (list) of items currently held:

* a producer is counted in `pReady` while at the top of its
  `for i := range jobChannel` loop, appears as a claimed slot inside `pHold`
  after receiving a job and before its `select`, and is counted in `pExited`
  after returning.  The Go `select { default: push; case <-quitChannel: return }`
  takes the quit case exactly when `quitChannel` is already closed (a closed
  channel is always ready and `default` fires only when no case is ready),
  and otherwise performs the send; both outcomes appear as separate labels
  guarded accordingly.
* a consumer is counted in `cReady` at the top of `for w := range inWidgetChannel`,
  holds the received widget inside `cHold` before its `select` on `doneChannel`,
  and moves to `cExited` on return.  Consuming a broken widget executes
  `close(brokenWidgetChannel); close(doneChannel); return`.
* `productionWaitGroup.Wait()` followed by `defer close(outWidgetChannel)` is
  the `closeWidget` label: the widget channel closes exactly when every
  producer has exited.
* the coordinator (`WidgetProductionConsumptionLine`), when `numKth > 0`,
  blocks on `<-brokenWidgetChannel` and then closes `quitChannel`; this is
  the `coordQuit` label, enabled only once `brokenClosed` holds.

The Go `Widget` struct carries `id`, `source`, `time`, `broken`; only
`broken` is ever read by the coordination logic (`id`/`source`/`time` are
opaque strings and timestamps used for printing).  The model keeps `broken`
and adds the ghost field `slot` recording which job number produced the
widget, so that statements can talk about "the unit produced from slot i".
`producedList`/`consumedList` are ghost histories of every widget sent to
the widget channel and of every widget passed to `consume`, in order.

Nondeterministic scheduling is a list of `Label`s (which enabled transition
fires next); `run` executes such a schedule.  Universal claims quantify over
all schedules, existential ones exhibit a concrete schedule.
-/

namespace WidgetProduction

/-- One widget.  `slot` is the ghost identity: the job number `i` that the
producer received from `jobChannel` when it created this widget.  `broken`
is the field of the Go struct; the other Go fields (`id`, `source`, `time`)
are opaque to the coordination logic and omitted. -/
structure Widget where
  slot : Nat
  broken : Bool
deriving DecidableEq

/-- Global state of one run of `WidgetProductionConsumptionLine`
(src/unnamed/part_000).  `total`, `nP`, `nC`, `numKth` are the four
arguments `numWidgets`, `numProducers`, `numConsumers`, `numKth`;
the remaining fields are described in the module comment. -/
structure Config where
  total : Nat
  nP : Nat
  nC : Nat
  numKth : Int
  jobs : List Nat
  pReady : Nat
  pHold : List Nat
  pExited : Nat
  buf : List Widget
  widgetClosed : Bool
  cReady : Nat
  cHold : List Widget
  cExited : Nat
  quitClosed : Bool
  brokenClosed : Bool
  doneClosed : Bool
  raiseAttempts : Nat
  producedList : List Widget
  consumedList : List Widget
deriving DecidableEq

/-- The widget built by `workingProducer.produce(numKth == i)` for job `i`:
`if (numKth == i) { outWidgetChannel <- workingProducer.produce(true) } else
{ outWidgetChannel <- workingProducer.produce(false) }`. -/
def mkWidget (numKth : Int) (i : Nat) : Widget :=
  ⟨i, decide ((i : Int) = numKth)⟩

/-- State right after `WidgetProductionConsumptionLine` has built the worker
tables, allocated the channels, prefilled `jobChannel` with `1, ..., numWidgets`
(`for i := 1; i <= numWidgets; i++ { jobChannel <- i }`), closed it, and
started `productionLine` and `consumptionLine`. -/
def initConfig (total nP nC : Nat) (numKth : Int) : Config :=
  { total := total
    nP := nP
    nC := nC
    numKth := numKth
    jobs := List.range' 1 total
    pReady := nP
    pHold := []
    pExited := 0
    buf := []
    widgetClosed := false
    cReady := nC
    cHold := []
    cExited := 0
    quitClosed := false
    brokenClosed := false
    doneClosed := false
    raiseAttempts := 0
    producedList := []
    consumedList := [] }

/-- Scheduling labels: which worker performs which atomic action next.
Indices `j` pick one of the currently held items (the producers and
consumers inside a pool are interchangeable except for the item they hold). -/
inductive Label where
  | claim : Label
  | pexitJobs : Label
  | pexitQuit : Nat → Label
  | push : Nat → Label
  | closeWidget : Label
  | take : Label
  | cexitDrain : Label
  | cexitDone : Nat → Label
  | consume : Nat → Label
  | coordQuit : Label
deriving DecidableEq

/-- One atomic step of the slot-based pipeline; `none` means the chosen
action is not enabled (the worker would block or the guard fails). -/
def step (cfg : Config) : Label → Option Config
  | .claim =>
    match cfg.jobs, cfg.pReady with
    | i :: rest, r + 1 =>
        some { cfg with jobs := rest, pReady := r, pHold := i :: cfg.pHold }
    | _, _ => none
  | .pexitJobs =>
    match cfg.jobs, cfg.pReady with
    | [], r + 1 =>
        some { cfg with pReady := r, pExited := cfg.pExited + 1 }
    | _, _ => none
  | .pexitQuit j =>
    match cfg.pHold.get? j, cfg.quitClosed with
    | some _, true =>
        some { cfg with pHold := cfg.pHold.eraseIdx j, pExited := cfg.pExited + 1 }
    | _, _ => none
  | .push j =>
    match cfg.pHold.get? j, cfg.quitClosed with
    | some i, false =>
        if cfg.buf.length < cfg.total then
          some { cfg with
            pHold := cfg.pHold.eraseIdx j
            pReady := cfg.pReady + 1
            buf := cfg.buf ++ [mkWidget cfg.numKth i]
            producedList := cfg.producedList ++ [mkWidget cfg.numKth i] }
        else none
    | _, _ => none
  | .closeWidget =>
    match cfg.pReady, cfg.pHold, cfg.widgetClosed with
    | 0, [], false => some { cfg with widgetClosed := true }
    | _, _, _ => none
  | .take =>
    match cfg.buf, cfg.cReady with
    | w :: rest, r + 1 =>
        some { cfg with buf := rest, cReady := r, cHold := w :: cfg.cHold }
    | _, _ => none
  | .cexitDrain =>
    match cfg.buf, cfg.widgetClosed, cfg.cReady with
    | [], true, r + 1 =>
        some { cfg with cReady := r, cExited := cfg.cExited + 1 }
    | _, _, _ => none
  | .cexitDone j =>
    match cfg.cHold.get? j, cfg.doneClosed with
    | some _, true =>
        some { cfg with cHold := cfg.cHold.eraseIdx j, cExited := cfg.cExited + 1 }
    | _, _ => none
  | .consume j =>
    match cfg.cHold.get? j, cfg.doneClosed with
    | some w, false =>
        if w.broken then
          some { cfg with
            cHold := cfg.cHold.eraseIdx j
            cExited := cfg.cExited + 1
            consumedList := cfg.consumedList ++ [w]
            raiseAttempts := cfg.raiseAttempts + 1
            brokenClosed := true
            doneClosed := true }
        else
          some { cfg with
            cHold := cfg.cHold.eraseIdx j
            cReady := cfg.cReady + 1
            consumedList := cfg.consumedList ++ [w] }
    | _, _ => none
  | .coordQuit =>
    if 0 < cfg.numKth ∧ cfg.brokenClosed = true ∧ cfg.quitClosed = false then
      some { cfg with quitClosed := true }
    else none

/-- Execute a schedule from a configuration; `none` if some chosen action
was not enabled. -/
def run (cfg : Config) : List Label → Option Config
  | [] => some cfg
  | l :: ls =>
    match step cfg l with
    | some cfg2 => run cfg2 ls
    | none => none

/-- Decides whether no transition at all is enabled (every worker is blocked
or has exited, and the coordinator cannot move).  The indexed labels are
enabled for some index exactly when they are enabled for index 0. -/
def stuckB (cfg : Config) : Bool :=
  !((decide (1 ≤ cfg.pReady) && !cfg.jobs.isEmpty)
    || (decide (1 ≤ cfg.pReady) && cfg.jobs.isEmpty)
    || (!cfg.pHold.isEmpty && cfg.quitClosed)
    || (!cfg.pHold.isEmpty && !cfg.quitClosed && decide (cfg.buf.length < cfg.total))
    || (decide (cfg.pReady = 0) && cfg.pHold.isEmpty && !cfg.widgetClosed)
    || (decide (1 ≤ cfg.cReady) && !cfg.buf.isEmpty)
    || (decide (1 ≤ cfg.cReady) && cfg.buf.isEmpty && cfg.widgetClosed)
    || (!cfg.cHold.isEmpty && cfg.doneClosed)
    || (!cfg.cHold.isEmpty && !cfg.doneClosed)
    || (decide (0 < cfg.numKth) && cfg.brokenClosed && !cfg.quitClosed))

/-- Decides whether the whole Go function has returned: both pools have
fully exited, the widget channel is closed (so `productionLine` passed its
wait group and ran its deferred close), and, when `numKth > 0`, the
coordinator has been released from `<-brokenWidgetChannel` and has executed
`close(quitChannel)`, so that `wg.Wait()` returns. -/
def completedB (cfg : Config) : Bool :=
  decide (cfg.pExited = cfg.nP) && decide (cfg.cExited = cfg.nC)
    && cfg.widgetClosed && (decide (cfg.numKth ≤ 0) || cfg.quitClosed)

/-- Number of broken widgets in a list. -/
def countBroken (l : List Widget) : Nat :=
  l.countP (fun w => w.broken)

/-- Number of job slots in a list that equal the defect index. -/
def countK (numKth : Int) (l : List Nat) : Nat :=
  l.countP (fun i : Nat => decide ((i : Int) = numKth))

/-- Termination measure: strictly decreases along every step. -/
def measure (cfg : Config) : Nat :=
  7 * cfg.jobs.length + cfg.pReady + 7 * cfg.pHold.length
    + 5 * cfg.buf.length + cfg.cReady + 4 * cfg.cHold.length
    + (if cfg.widgetClosed then 0 else 1)
    + (if cfg.quitClosed then 0 else 1)
    + (if cfg.brokenClosed then 0 else 1)
    + (if cfg.doneClosed then 0 else 1)

/-! ### List helper lemmas -/

theorem countP_eraseIdx {α : Type} (l : List α) (p : α → Bool) (j : Nat) (a : α)
    (h : l.get? j = some a) :
    l.countP p = (l.eraseIdx j).countP p + (if p a then 1 else 0) := by
  have hj : j < l.length := List.get?_eq_some.mp h |>.1
  have hget : l.get ⟨j, hj⟩ = a := by
    have hq := List.get?_eq_get hj
    rw [hq] at h
    exact Option.some_inj.mp h
  rw [List.eraseIdx_eq_take_drop_succ]
  conv_lhs => rw [← List.take_append_drop j l]
  rw [List.drop_eq_get_cons hj, hget]
  simp [List.countP_append, List.countP_cons]
  try omega

theorem length_eraseIdx_get? {α : Type} (l : List α) (j : Nat) (a : α)
    (h : l.get? j = some a) :
    l.length = (l.eraseIdx j).length + 1 := by
  have hj : j < l.length := List.get?_eq_some.mp h |>.1
  have := List.length_eraseIdx l j
  rw [if_pos hj] at this
  try omega

theorem mem_of_mem_eraseIdx {α : Type} {l : List α} {j : Nat} {x : α}
    (h : x ∈ l.eraseIdx j) : x ∈ l :=
  List.eraseIdx_subset l j h

theorem mem_range'_iff (m s n : Nat) : m ∈ List.range' s n ↔ s ≤ m ∧ m < s + n := by
  constructor
  · intro h
    obtain ⟨i, hi, rfl⟩ := List.mem_range'.mp h
    omega
  · intro h
    exact List.mem_range'.mpr ⟨m - s, by omega, by omega⟩

theorem countK_append (k : Int) (l m : List Nat) :
    countK k (l ++ m) = countK k l + countK k m :=
  List.countP_append _ _ _

theorem countK_singleton (k : Int) (i : Nat) :
    countK k [i] = if (i : Int) = k then 1 else 0 := by
  by_cases hk : (i : Int) = k
  · simp [countK, hk]
  · simp [countK, hk]

theorem countK_range' (k : Int) (n : Nat) :
    countK k (List.range' 1 n) = if 1 ≤ k ∧ k ≤ (n : Int) then 1 else 0 := by
  induction n with
  | zero =>
    rw [if_neg (by omega)]
    rfl
  | succ n ih =>
    rw [List.range'_concat, countK_append, ih, countK_singleton]
    by_cases hk : ((1 + 1 * n : Nat) : Int) = k
    · rw [if_pos hk, if_neg (by push_cast at hk ⊢; omega),
        if_pos (by push_cast at hk ⊢; omega)]
    · rw [if_neg hk]
      by_cases hr : 1 ≤ k ∧ k ≤ (n : Int)
      · rw [if_pos hr, if_pos (by push_cast; omega)]
      · rw [if_neg hr, if_neg (by push_cast at hk ⊢; omega)]

/-! ### Termination: the measure strictly decreases along every step -/

theorem measure_decreases (cfg cfg2 : Config) (l : Label) (h : step cfg l = some cfg2) :
    measure cfg2 < measure cfg := by
  cases l with
  | claim =>
    simp only [step] at h
    split at h
    case _ i rest r heq1 heq2 =>
      cases h
      simp [measure, heq1, heq2]
      try omega
    case _ => exact absurd h (by simp)
  | pexitJobs =>
    simp only [step] at h
    split at h
    case _ r heq1 heq2 =>
      cases h
      simp [measure, heq1, heq2]
      try omega
    case _ => exact absurd h (by simp)
  | pexitQuit j =>
    simp only [step] at h
    split at h
    case _ a heq1 heq2 =>
      cases h
      have hlen := length_eraseIdx_get? cfg.pHold j a heq1
      simp [measure]
      try omega
    case _ => exact absurd h (by simp)
  | push j =>
    simp only [step] at h
    split at h
    case _ i heq1 heq2 =>
      split at h
      · cases h
        have hlen := length_eraseIdx_get? cfg.pHold j i heq1
        simp [measure]
        omega
      · exact absurd h (by simp)
    case _ => exact absurd h (by simp)
  | closeWidget =>
    simp only [step] at h
    split at h
    case _ heq1 heq2 heq3 =>
      cases h
      simp [measure, heq1, heq2, heq3]
    case _ => exact absurd h (by simp)
  | take =>
    simp only [step] at h
    split at h
    case _ w rest r heq1 heq2 =>
      cases h
      simp [measure, heq1, heq2]
      try omega
    case _ => exact absurd h (by simp)
  | cexitDrain =>
    simp only [step] at h
    split at h
    case _ r heq1 heq2 heq3 =>
      cases h
      simp [measure, heq1, heq2, heq3]
      try omega
    case _ => exact absurd h (by simp)
  | cexitDone j =>
    simp only [step] at h
    split at h
    case _ w heq1 heq2 =>
      cases h
      have hlen := length_eraseIdx_get? cfg.cHold j w heq1
      simp [measure]
      try omega
    case _ => exact absurd h (by simp)
  | consume j =>
    simp only [step] at h
    split at h
    case _ w heq1 heq2 =>
      split at h
      · cases h
        have hlen := length_eraseIdx_get? cfg.cHold j w heq1
        simp [measure, heq2]
        omega
      · cases h
        have hlen := length_eraseIdx_get? cfg.cHold j w heq1
        simp [measure]
        omega
    case _ => exact absurd h (by simp)
  | coordQuit =>
    simp only [step] at h
    split at h
    case _ hc =>
      cases h
      obtain ⟨h1, h2, h3⟩ := hc
      simp [measure, h3]
    case _ => exact absurd h (by simp)

theorem run_length_le (tr : List Label) (cfg cfg2 : Config)
    (h : run cfg tr = some cfg2) : tr.length + measure cfg2 ≤ measure cfg := by
  induction tr generalizing cfg with
  | nil =>
    simp only [run] at h
    cases h
    simp
  | cons l ls ih =>
    simp only [run] at h
    split at h
    case _ mid heq =>
      have h1 := measure_decreases cfg mid l heq
      have h2 := ih mid h
      simp only [List.length_cons]
      try omega
    case _ => exact absurd h (by simp)

theorem measure_init (total nP nC : Nat) (k : Int) :
    measure (initConfig total nP nC k) = 7 * total + nP + nC + 4 := by
  simp [measure, initConfig]
  try omega

/-! ### Count bookkeeping lemmas specialised to the model -/

theorem countBroken_append (l : List Widget) (w : Widget) :
    countBroken (l ++ [w]) = countBroken l + (if w.broken then 1 else 0) := by
  simp [countBroken, List.countP_append, List.countP_cons]

theorem countBroken_cons (w : Widget) (l : List Widget) :
    countBroken (w :: l) = countBroken l + (if w.broken then 1 else 0) := by
  simp [countBroken, List.countP_cons]

theorem countBroken_eraseIdx (l : List Widget) (j : Nat) (w : Widget)
    (h : l.get? j = some w) :
    countBroken l = countBroken (l.eraseIdx j) + (if w.broken then 1 else 0) :=
  countP_eraseIdx l _ j w h

theorem countK_cons (k : Int) (i : Nat) (l : List Nat) :
    countK k (i :: l) = countK k l + (if (i : Int) = k then 1 else 0) := by
  by_cases hk : (i : Int) = k
  · simp [countK, List.countP_cons, hk]
  · simp [countK, List.countP_cons, hk]

theorem countK_eraseIdx (k : Int) (l : List Nat) (j : Nat) (i : Nat)
    (h : l.get? j = some i) :
    countK k l = countK k (l.eraseIdx j) + (if (i : Int) = k then 1 else 0) := by
  have := countP_eraseIdx l (fun i : Nat => decide ((i : Int) = k)) j i h
  rw [countK, countK, this]
  by_cases hk : (i : Int) = k
  · simp [hk]
  · simp [hk]

theorem mkWidget_broken (k : Int) (i : Nat) :
    (mkWidget k i).broken = decide ((i : Int) = k) := rfl

theorem countBroken_append_mk (k : Int) (l : List Widget) (i : Nat) :
    countBroken (l ++ [mkWidget k i]) = countBroken l + (if (i : Int) = k then 1 else 0) := by
  rw [countBroken_append]
  by_cases hik : (i : Int) = k
  · rw [if_pos hik]
    have hd : (mkWidget k i).broken = true := by
      rw [mkWidget_broken]
      exact decide_eq_true hik
    rw [hd]
    simp
  · rw [if_neg hik]
    have hd : (mkWidget k i).broken = false := by
      rw [mkWidget_broken]
      exact decide_eq_false hik
    rw [hd]
    simp

theorem mkWidget_slot (k : Int) (i : Nat) : (mkWidget k i).slot = i := rfl

theorem countBroken_append_true (l : List Widget) (w : Widget) (h : w.broken = true) :
    countBroken (l ++ [w]) = countBroken l + 1 := by
  rw [countBroken_append, h]
  simp

theorem countBroken_append_false (l : List Widget) (w : Widget) (h : w.broken = false) :
    countBroken (l ++ [w]) = countBroken l := by
  rw [countBroken_append, h]
  simp

theorem countBroken_eraseIdx_true (l : List Widget) (j : Nat) (w : Widget)
    (hg : l.get? j = some w) (h : w.broken = true) :
    countBroken l = countBroken (l.eraseIdx j) + 1 := by
  rw [countBroken_eraseIdx l j w hg, h]
  simp

theorem countBroken_eraseIdx_false (l : List Widget) (j : Nat) (w : Widget)
    (hg : l.get? j = some w) (h : w.broken = false) :
    countBroken l = countBroken (l.eraseIdx j) := by
  rw [countBroken_eraseIdx l j w hg, h]
  simp

/-! ### The global invariant of the transition system -/

/-- Everything that holds in every reachable configuration, for all
parameter values.  Conditional fields are phrased so that they are
established vacuously in regimes where their antecedent is impossible. -/
structure Inv (cfg : Config) : Prop where
  jobsRange : ∀ i ∈ cfg.jobs, 1 ≤ i ∧ i ≤ cfg.total
  holdRange : ∀ i ∈ cfg.pHold, 1 ≤ i ∧ i ≤ cfg.total
  prodSlotRange : ∀ w ∈ cfg.producedList, 1 ≤ w.slot ∧ w.slot ≤ cfg.total
  prodBroken : ∀ w ∈ cfg.producedList, w.broken = decide ((w.slot : Int) = cfg.numKth)
  kCount : countK cfg.numKth cfg.jobs + countK cfg.numKth cfg.pHold
      + countBroken cfg.producedList ≤ 1
  flowBroken : countBroken cfg.buf + countBroken cfg.cHold + countBroken cfg.consumedList
      ≤ countBroken cfg.producedList
  raiseEq : cfg.raiseAttempts = countBroken cfg.consumedList
  brokenIff : cfg.brokenClosed = true ↔ 1 ≤ cfg.raiseAttempts
  doneEq : cfg.doneClosed = cfg.brokenClosed
  quitImp : cfg.quitClosed = true → cfg.brokenClosed = true ∧ 0 < cfg.numKth
  closedProds : cfg.widgetClosed = true → cfg.pReady = 0 ∧ cfg.pHold = []
  exitJobsEmpty : cfg.quitClosed = false → 1 ≤ cfg.pExited → cfg.jobs = []
  exitWidgetClosed : cfg.doneClosed = false → 1 ≤ cfg.cExited → cfg.widgetClosed = true
  drainEmpty : cfg.doneClosed = false → cfg.cReady = 0 → cfg.cHold = [] →
      1 ≤ cfg.cExited → cfg.buf = []
  capSum : cfg.jobs.length + cfg.pHold.length + cfg.buf.length + cfg.cHold.length
      + cfg.consumedList.length ≤ cfg.total
  capSumEq : cfg.quitClosed = false → cfg.doneClosed = false →
      cfg.jobs.length + cfg.pHold.length + cfg.buf.length + cfg.cHold.length
        + cfg.consumedList.length = cfg.total
  flowLenEq : cfg.doneClosed = false →
      cfg.buf.length + cfg.cHold.length + cfg.consumedList.length
        = cfg.producedList.length
  prodCap : cfg.producedList.length + cfg.jobs.length + cfg.pHold.length ≤ cfg.total
  pConserve : cfg.pReady + cfg.pHold.length + cfg.pExited = cfg.nP
  cConserve : cfg.cReady + cfg.cHold.length + cfg.cExited = cfg.nC
  locate : cfg.brokenClosed = false → 1 ≤ cfg.numKth → cfg.numKth ≤ (cfg.total : Int) →
      1 ≤ countK cfg.numKth cfg.jobs + countK cfg.numKth cfg.pHold
        + countBroken cfg.buf + countBroken cfg.cHold

theorem inv_init (total nP nC : Nat) (k : Int) : Inv (initConfig total nP nC k) := by
  refine
    { jobsRange := ?_
      holdRange := by simp [initConfig]
      prodSlotRange := by simp [initConfig]
      prodBroken := by simp [initConfig]
      kCount := ?_
      flowBroken := by simp [initConfig, countBroken]
      raiseEq := by simp [initConfig, countBroken]
      brokenIff := by simp [initConfig]
      doneEq := rfl
      quitImp := by simp [initConfig]
      closedProds := by simp [initConfig]
      exitJobsEmpty := by simp [initConfig]
      exitWidgetClosed := by simp [initConfig]
      drainEmpty := by simp [initConfig]
      capSum := ?_
      capSumEq := ?_
      flowLenEq := by simp [initConfig, countBroken]
      prodCap := by simp [initConfig]
      pConserve := by simp [initConfig]
      cConserve := by simp [initConfig]
      locate := ?_ }
  · intro i hi
    simp only [initConfig] at hi ⊢
    have := (mem_range'_iff i 1 total).mp hi
    omega
  · simp only [initConfig, countK, List.countP_nil, countBroken]
    have := countK_range' k total
    rw [countK] at this
    rw [this]
    split <;> simp
  · simp [initConfig]
  · simp [initConfig]
  · intro hb h1 h2
    simp only [initConfig] at h1 h2 ⊢
    have hc := countK_range' k total
    rw [if_pos ⟨h1, h2⟩] at hc
    rw [hc]
    simp [countK, countBroken]

theorem inv_claim (cfg cfg2 : Config) (h : step cfg .claim = some cfg2)
    (inv : Inv cfg) : Inv cfg2 := by
  simp only [step] at h
  split at h
  case _ i rest r heq1 heq2 =>
    cases h
    obtain ⟨jr, hr, psr, pb, kc, fb, re, bi, de, qi, cp, eje, ewc, dre, cs, cse, fle, pc,
      pcon, ccon, loc⟩ := inv
    constructor
    case jobsRange =>
      intro x hx
      dsimp only at hx ⊢
      exact jr x (by rw [heq1]; exact List.mem_cons_of_mem _ hx)
    case holdRange =>
      intro x hx
      dsimp only at hx ⊢
      rcases List.mem_cons.mp hx with h1 | h2
      · exact h1 ▸ jr i (by rw [heq1]; exact List.mem_cons_self _ _)
      · exact hr x h2
    case prodSlotRange =>
      intro w hw
      dsimp only at hw ⊢
      exact psr w hw
    case prodBroken =>
      intro w hw
      dsimp only at hw ⊢
      exact pb w hw
    case kCount =>
      dsimp only
      rw [heq1, countK_cons] at kc
      rw [countK_cons]
      omega
    case flowBroken => exact fb
    case raiseEq => exact re
    case brokenIff => exact bi
    case doneEq => exact de
    case quitImp => exact qi
    case closedProds =>
      intro hw
      dsimp only at hw ⊢
      exfalso
      have h0 := (cp hw).1
      rw [heq2] at h0
      omega
    case exitJobsEmpty =>
      intro hq he
      dsimp only at hq he ⊢
      have h0 := eje hq he
      rw [heq1] at h0
      exact (List.cons_ne_nil i rest h0).elim
    case exitWidgetClosed =>
      intro h1 h2
      dsimp only at h1 h2 ⊢
      exact ewc h1 h2
    case drainEmpty =>
      intro h1 h2 h3 h4
      dsimp only at h1 h2 h3 h4 ⊢
      exact dre h1 h2 h3 h4
    case capSum =>
      dsimp only
      rw [heq1] at cs
      simp only [List.length_cons] at cs ⊢
      omega
    case capSumEq =>
      intro hq hd
      dsimp only at hq hd ⊢
      have h0 := cse hq hd
      rw [heq1] at h0
      simp only [List.length_cons] at h0 ⊢
      omega
    case flowLenEq =>
      intro hd
      dsimp only at hd ⊢
      exact fle hd
    case prodCap =>
      dsimp only
      rw [heq1] at pc
      simp only [List.length_cons] at pc ⊢
      omega
    case pConserve =>
      dsimp only
      rw [heq2] at pcon
      simp only [List.length_cons]
      omega
    case cConserve => exact ccon
    case locate =>
      intro hb h1 h2
      dsimp only at hb h1 h2 ⊢
      have h0 := loc hb h1 h2
      rw [heq1, countK_cons] at h0
      rw [countK_cons]
      omega
  case _ =>
    exact absurd h (by simp)

theorem inv_pexitJobs (cfg cfg2 : Config) (h : step cfg .pexitJobs = some cfg2)
    (inv : Inv cfg) : Inv cfg2 := by
  simp only [step] at h
  split at h
  case _ r heq1 heq2 =>
    cases h
    obtain ⟨jr, hr, psr, pb, kc, fb, re, bi, de, qi, cp, eje, ewc, dre, cs, cse, fle, pc,
      pcon, ccon, loc⟩ := inv
    constructor
    case jobsRange => exact jr
    case holdRange => exact hr
    case prodSlotRange => exact psr
    case prodBroken => exact pb
    case kCount => exact kc
    case flowBroken => exact fb
    case raiseEq => exact re
    case brokenIff => exact bi
    case doneEq => exact de
    case quitImp => exact qi
    case closedProds =>
      intro hw
      dsimp only at hw ⊢
      exfalso
      have h0 := (cp hw).1
      rw [heq2] at h0
      omega
    case exitJobsEmpty =>
      intro hq he
      dsimp only at hq he ⊢
      exact heq1
    case exitWidgetClosed =>
      intro h1 h2
      dsimp only at h1 h2 ⊢
      exact ewc h1 h2
    case drainEmpty =>
      intro h1 h2 h3 h4
      dsimp only at h1 h2 h3 h4 ⊢
      exact dre h1 h2 h3 h4
    case capSum => exact cs
    case capSumEq =>
      intro hq hd
      dsimp only at hq hd ⊢
      exact cse hq hd
    case flowLenEq =>
      intro hd
      dsimp only at hd ⊢
      exact fle hd
    case prodCap => exact pc
    case pConserve =>
      dsimp only
      rw [heq2] at pcon
      omega
    case cConserve => exact ccon
    case locate =>
      intro hb h1 h2
      dsimp only at hb h1 h2 ⊢
      exact loc hb h1 h2
  case _ =>
    exact absurd h (by simp)

theorem inv_pexitQuit (cfg cfg2 : Config) (j : Nat)
    (h : step cfg (.pexitQuit j) = some cfg2) (inv : Inv cfg) : Inv cfg2 := by
  simp only [step] at h
  split at h
  case _ a heq1 heq2 =>
    cases h
    obtain ⟨jr, hr, psr, pb, kc, fb, re, bi, de, qi, cp, eje, ewc, dre, cs, cse, fle, pc,
      pcon, ccon, loc⟩ := inv
    have hlen := length_eraseIdx_get? cfg.pHold j a heq1
    have hcnt := countK_eraseIdx cfg.numKth cfg.pHold j a heq1
    constructor
    case jobsRange => exact jr
    case holdRange =>
      intro x hx
      dsimp only at hx ⊢
      exact hr x (mem_of_mem_eraseIdx hx)
    case prodSlotRange => exact psr
    case prodBroken => exact pb
    case kCount =>
      dsimp only
      rw [hcnt] at kc
      omega
    case flowBroken => exact fb
    case raiseEq => exact re
    case brokenIff => exact bi
    case doneEq => exact de
    case quitImp => exact qi
    case closedProds =>
      intro hw
      dsimp only at hw ⊢
      exfalso
      rw [(cp hw).2] at heq1
      cases j <;> exact Option.noConfusion heq1
    case exitJobsEmpty =>
      intro hq he
      dsimp only at hq he ⊢
      rw [heq2] at hq
      exact absurd hq (by simp)
    case exitWidgetClosed =>
      intro h1 h2
      dsimp only at h1 h2 ⊢
      exact ewc h1 h2
    case drainEmpty =>
      intro h1 h2 h3 h4
      dsimp only at h1 h2 h3 h4 ⊢
      exact dre h1 h2 h3 h4
    case capSum =>
      dsimp only
      omega
    case capSumEq =>
      intro hq hd
      dsimp only at hq hd ⊢
      rw [heq2] at hq
      exact absurd hq (by simp)
    case flowLenEq =>
      intro hd
      dsimp only at hd ⊢
      exact fle hd
    case prodCap =>
      dsimp only
      omega
    case pConserve =>
      dsimp only
      omega
    case cConserve => exact ccon
    case locate =>
      intro hb h1 h2
      dsimp only at hb h1 h2 ⊢
      exfalso
      have h0 := (qi heq2).1
      rw [hb] at h0
      exact absurd h0 (by simp)
  case _ =>
    exact absurd h (by simp)

theorem inv_push (cfg cfg2 : Config) (j : Nat)
    (h : step cfg (.push j) = some cfg2) (inv : Inv cfg) : Inv cfg2 := by
  simp only [step] at h
  split at h
  case _ i heq1 heq2 =>
    split at h
    case isTrue hcap =>
      cases h
      obtain ⟨jr, hr, psr, pb, kc, fb, re, bi, de, qi, cp, eje, ewc, dre, cs, cse, fle, pc,
        pcon, ccon, loc⟩ := inv
      have hlen := length_eraseIdx_get? cfg.pHold j i heq1
      have hcnt := countK_eraseIdx cfg.numKth cfg.pHold j i heq1
      have hmem : i ∈ cfg.pHold := List.get?_mem heq1
      constructor
      case jobsRange => exact jr
      case holdRange =>
        intro x hx
        dsimp only at hx ⊢
        exact hr x (mem_of_mem_eraseIdx hx)
      case prodSlotRange =>
        intro w hw
        dsimp only at hw ⊢
        rcases List.mem_append.mp hw with h1 | h2
        · exact psr w h1
        · rw [List.mem_singleton.mp h2]
          exact hr i hmem
      case prodBroken =>
        intro w hw
        dsimp only at hw ⊢
        rcases List.mem_append.mp hw with h1 | h2
        · exact pb w h1
        · rw [List.mem_singleton.mp h2]
          rfl
      case kCount =>
        dsimp only
        rw [hcnt] at kc
        rw [countBroken_append_mk]
        omega
      case flowBroken =>
        dsimp only
        rw [countBroken_append_mk, countBroken_append_mk]
        omega
      case raiseEq => exact re
      case brokenIff => exact bi
      case doneEq => exact de
      case quitImp => exact qi
      case closedProds =>
        intro hw
        dsimp only at hw ⊢
        exfalso
        rw [(cp hw).2] at heq1
        cases j <;> exact Option.noConfusion heq1
      case exitJobsEmpty =>
        intro hq he
        dsimp only at hq he ⊢
        exact eje hq he
      case exitWidgetClosed =>
        intro h1 h2
        dsimp only at h1 h2 ⊢
        exact ewc h1 h2
      case drainEmpty =>
        intro h1 h2 h3 h4
        dsimp only at h1 h2 h3 h4 ⊢
        exfalso
        have hwc := ewc h1 h4
        rw [(cp hwc).2] at heq1
        cases j <;> exact Option.noConfusion heq1
      case capSum =>
        dsimp only
        simp only [List.length_append, List.length_cons, List.length_nil]
        omega
      case capSumEq =>
        intro hq hd
        dsimp only at hq hd ⊢
        have h0 := cse hq hd
        simp only [List.length_append, List.length_cons, List.length_nil]
        omega
      case flowLenEq =>
        intro hd
        dsimp only at hd ⊢
        have h0 := fle hd
        simp only [List.length_append, List.length_cons, List.length_nil]
        omega
      case prodCap =>
        dsimp only
        simp only [List.length_append, List.length_cons, List.length_nil]
        omega
      case pConserve =>
        dsimp only
        omega
      case cConserve => exact ccon
      case locate =>
        intro hb h1 h2
        dsimp only at hb h1 h2 ⊢
        have h0 := loc hb h1 h2
        rw [hcnt] at h0
        rw [countBroken_append_mk]
        omega
    case isFalse =>
      exact absurd h (by simp)
  case _ =>
    exact absurd h (by simp)

theorem inv_closeWidget (cfg cfg2 : Config) (h : step cfg .closeWidget = some cfg2)
    (inv : Inv cfg) : Inv cfg2 := by
  simp only [step] at h
  split at h
  case _ heq1 heq2 heq3 =>
    cases h
    obtain ⟨jr, hr, psr, pb, kc, fb, re, bi, de, qi, cp, eje, ewc, dre, cs, cse, fle, pc,
      pcon, ccon, loc⟩ := inv
    constructor
    case jobsRange => exact jr
    case holdRange => exact hr
    case prodSlotRange => exact psr
    case prodBroken => exact pb
    case kCount => exact kc
    case flowBroken => exact fb
    case raiseEq => exact re
    case brokenIff => exact bi
    case doneEq => exact de
    case quitImp => exact qi
    case closedProds =>
      intro hw
      dsimp only
      exact ⟨heq1, heq2⟩
    case exitJobsEmpty =>
      intro hq he
      dsimp only at hq he ⊢
      exact eje hq he
    case exitWidgetClosed =>
      intro h1 h2
      rfl
    case drainEmpty =>
      intro h1 h2 h3 h4
      dsimp only at h1 h2 h3 h4 ⊢
      exact dre h1 h2 h3 h4
    case capSum => exact cs
    case capSumEq =>
      intro hq hd
      dsimp only at hq hd ⊢
      exact cse hq hd
    case flowLenEq =>
      intro hd
      dsimp only at hd ⊢
      exact fle hd
    case prodCap => exact pc
    case pConserve => exact pcon
    case cConserve => exact ccon
    case locate =>
      intro hb h1 h2
      dsimp only at hb h1 h2 ⊢
      exact loc hb h1 h2
  case _ =>
    exact absurd h (by simp)

theorem inv_take (cfg cfg2 : Config) (h : step cfg .take = some cfg2)
    (inv : Inv cfg) : Inv cfg2 := by
  simp only [step] at h
  split at h
  case _ w rest r heq1 heq2 =>
    cases h
    obtain ⟨jr, hr, psr, pb, kc, fb, re, bi, de, qi, cp, eje, ewc, dre, cs, cse, fle, pc,
      pcon, ccon, loc⟩ := inv
    constructor
    case jobsRange => exact jr
    case holdRange => exact hr
    case prodSlotRange => exact psr
    case prodBroken => exact pb
    case kCount => exact kc
    case flowBroken =>
      dsimp only
      rw [heq1, countBroken_cons] at fb
      rw [countBroken_cons]
      omega
    case raiseEq => exact re
    case brokenIff => exact bi
    case doneEq => exact de
    case quitImp => exact qi
    case closedProds =>
      intro hw
      dsimp only at hw ⊢
      exact cp hw
    case exitJobsEmpty =>
      intro hq he
      dsimp only at hq he ⊢
      exact eje hq he
    case exitWidgetClosed =>
      intro h1 h2
      dsimp only at h1 h2 ⊢
      exact ewc h1 h2
    case drainEmpty =>
      intro h1 h2 h3 h4
      dsimp only at h3
      exact (List.cons_ne_nil w cfg.cHold h3).elim
    case capSum =>
      dsimp only
      rw [heq1] at cs
      simp only [List.length_cons] at cs ⊢
      omega
    case capSumEq =>
      intro hq hd
      dsimp only at hq hd ⊢
      have h0 := cse hq hd
      rw [heq1] at h0
      simp only [List.length_cons] at h0 ⊢
      omega
    case flowLenEq =>
      intro hd
      dsimp only at hd ⊢
      have h0 := fle hd
      rw [heq1] at h0
      simp only [List.length_cons] at h0 ⊢
      omega
    case prodCap => exact pc
    case pConserve => exact pcon
    case cConserve =>
      dsimp only
      rw [heq2] at ccon
      simp only [List.length_cons]
      omega
    case locate =>
      intro hb h1 h2
      dsimp only at hb h1 h2 ⊢
      have h0 := loc hb h1 h2
      rw [heq1, countBroken_cons] at h0
      rw [countBroken_cons]
      omega
  case _ =>
    exact absurd h (by simp)

theorem inv_cexitDrain (cfg cfg2 : Config) (h : step cfg .cexitDrain = some cfg2)
    (inv : Inv cfg) : Inv cfg2 := by
  simp only [step] at h
  split at h
  case _ r heq1 heq2 heq3 =>
    cases h
    obtain ⟨jr, hr, psr, pb, kc, fb, re, bi, de, qi, cp, eje, ewc, dre, cs, cse, fle, pc,
      pcon, ccon, loc⟩ := inv
    constructor
    case jobsRange => exact jr
    case holdRange => exact hr
    case prodSlotRange => exact psr
    case prodBroken => exact pb
    case kCount => exact kc
    case flowBroken => exact fb
    case raiseEq => exact re
    case brokenIff => exact bi
    case doneEq => exact de
    case quitImp => exact qi
    case closedProds =>
      intro hw
      dsimp only at hw ⊢
      exact cp hw
    case exitJobsEmpty =>
      intro hq he
      dsimp only at hq he ⊢
      exact eje hq he
    case exitWidgetClosed =>
      intro h1 h2
      dsimp only
      exact heq2
    case drainEmpty =>
      intro h1 h2 h3 h4
      dsimp only
      exact heq1
    case capSum => exact cs
    case capSumEq =>
      intro hq hd
      dsimp only at hq hd ⊢
      exact cse hq hd
    case flowLenEq =>
      intro hd
      dsimp only at hd ⊢
      exact fle hd
    case prodCap => exact pc
    case pConserve => exact pcon
    case cConserve =>
      dsimp only
      rw [heq3] at ccon
      omega
    case locate =>
      intro hb h1 h2
      dsimp only at hb h1 h2 ⊢
      exact loc hb h1 h2
  case _ =>
    exact absurd h (by simp)

theorem inv_cexitDone (cfg cfg2 : Config) (j : Nat)
    (h : step cfg (.cexitDone j) = some cfg2) (inv : Inv cfg) : Inv cfg2 := by
  simp only [step] at h
  split at h
  case _ w heq1 heq2 =>
    cases h
    obtain ⟨jr, hr, psr, pb, kc, fb, re, bi, de, qi, cp, eje, ewc, dre, cs, cse, fle, pc,
      pcon, ccon, loc⟩ := inv
    have hlen := length_eraseIdx_get? cfg.cHold j w heq1
    have hbc := countBroken_eraseIdx cfg.cHold j w heq1
    constructor
    case jobsRange => exact jr
    case holdRange => exact hr
    case prodSlotRange => exact psr
    case prodBroken => exact pb
    case kCount => exact kc
    case flowBroken =>
      dsimp only
      rw [hbc] at fb
      omega
    case raiseEq => exact re
    case brokenIff => exact bi
    case doneEq => exact de
    case quitImp => exact qi
    case closedProds =>
      intro hw
      dsimp only at hw ⊢
      exact cp hw
    case exitJobsEmpty =>
      intro hq he
      dsimp only at hq he ⊢
      exact eje hq he
    case exitWidgetClosed =>
      intro h1 h2
      dsimp only at h1
      rw [heq2] at h1
      exact absurd h1 (by simp)
    case drainEmpty =>
      intro h1 h2 h3 h4
      dsimp only at h1
      rw [heq2] at h1
      exact absurd h1 (by simp)
    case capSum =>
      dsimp only
      omega
    case capSumEq =>
      intro hq hd
      dsimp only at hd
      rw [heq2] at hd
      exact absurd hd (by simp)
    case flowLenEq =>
      intro hd
      dsimp only at hd
      rw [heq2] at hd
      exact absurd hd (by simp)
    case prodCap => exact pc
    case pConserve => exact pcon
    case cConserve =>
      dsimp only
      omega
    case locate =>
      intro hb h1 h2
      dsimp only at hb h1 h2 ⊢
      rw [heq2] at de
      rw [hb] at de
      exact absurd de (by simp)
  case _ =>
    exact absurd h (by simp)

theorem inv_consume (cfg cfg2 : Config) (j : Nat)
    (h : step cfg (.consume j) = some cfg2) (inv : Inv cfg) : Inv cfg2 := by
  simp only [step] at h
  split at h
  case _ w heq1 heq2 =>
    obtain ⟨jr, hr, psr, pb, kc, fb, re, bi, de, qi, cp, eje, ewc, dre, cs, cse, fle, pc,
      pcon, ccon, loc⟩ := inv
    have hlen := length_eraseIdx_get? cfg.cHold j w heq1
    split at h
    case isTrue hbw =>
      cases h
      constructor
      case jobsRange => exact jr
      case holdRange => exact hr
      case prodSlotRange => exact psr
      case prodBroken => exact pb
      case kCount => exact kc
      case flowBroken =>
        dsimp only
        rw [countBroken_eraseIdx_true cfg.cHold j w heq1 hbw] at fb
        rw [countBroken_append_true cfg.consumedList w hbw]
        omega
      case raiseEq =>
        dsimp only
        rw [countBroken_append_true cfg.consumedList w hbw]
        omega
      case brokenIff =>
        dsimp only
        simp
      case doneEq => rfl
      case quitImp =>
        intro hq
        dsimp only at hq ⊢
        exact ⟨rfl, (qi hq).2⟩
      case closedProds =>
        intro hw
        dsimp only at hw ⊢
        exact cp hw
      case exitJobsEmpty =>
        intro hq he
        dsimp only at hq he ⊢
        exact eje hq he
      case exitWidgetClosed =>
        intro h1 h2
        dsimp only at h1
        exact absurd h1 (by simp)
      case drainEmpty =>
        intro h1 h2 h3 h4
        dsimp only at h1
        exact absurd h1 (by simp)
      case capSum =>
        dsimp only
        simp only [List.length_append, List.length_cons, List.length_nil]
        omega
      case capSumEq =>
        intro hq hd
        dsimp only at hd
        exact absurd hd (by simp)
      case flowLenEq =>
        intro hd
        dsimp only at hd
        exact absurd hd (by simp)
      case prodCap => exact pc
      case pConserve => exact pcon
      case cConserve =>
        dsimp only
        omega
      case locate =>
        intro hb h1 h2
        dsimp only at hb
        exact absurd hb (by simp)
    case isFalse hbw =>
      cases h
      have hbf : w.broken = false := by
        cases hw2 : w.broken
        · rfl
        · exact absurd hw2 hbw
      constructor
      case jobsRange => exact jr
      case holdRange => exact hr
      case prodSlotRange => exact psr
      case prodBroken => exact pb
      case kCount => exact kc
      case flowBroken =>
        dsimp only
        rw [countBroken_eraseIdx_false cfg.cHold j w heq1 hbf] at fb
        rw [countBroken_append_false cfg.consumedList w hbf]
        omega
      case raiseEq =>
        dsimp only
        rw [countBroken_append_false cfg.consumedList w hbf]
        exact re
      case brokenIff => exact bi
      case doneEq => exact de
      case quitImp => exact qi
      case closedProds =>
        intro hw
        dsimp only at hw ⊢
        exact cp hw
      case exitJobsEmpty =>
        intro hq he
        dsimp only at hq he ⊢
        exact eje hq he
      case exitWidgetClosed =>
        intro h1 h2
        dsimp only at h1 h2 ⊢
        exact ewc h1 h2
      case drainEmpty =>
        intro h1 h2 h3 h4
        dsimp only at h2
        exact absurd h2 (by omega)
      case capSum =>
        dsimp only
        simp only [List.length_append, List.length_cons, List.length_nil]
        omega
      case capSumEq =>
        intro hq hd
        dsimp only at hq hd ⊢
        have h0 := cse hq hd
        simp only [List.length_append, List.length_cons, List.length_nil]
        omega
      case flowLenEq =>
        intro hd
        dsimp only at hd ⊢
        have h0 := fle hd
        simp only [List.length_append, List.length_cons, List.length_nil]
        omega
      case prodCap => exact pc
      case pConserve => exact pcon
      case cConserve =>
        dsimp only
        omega
      case locate =>
        intro hb h1 h2
        dsimp only at hb h1 h2 ⊢
        have h0 := loc hb h1 h2
        rw [countBroken_eraseIdx_false cfg.cHold j w heq1 hbf] at h0
        omega
  case _ =>
    exact absurd h (by simp)

theorem inv_coordQuit (cfg cfg2 : Config) (h : step cfg .coordQuit = some cfg2)
    (inv : Inv cfg) : Inv cfg2 := by
  simp only [step] at h
  split at h
  case isTrue hc =>
    cases h
    obtain ⟨jr, hr, psr, pb, kc, fb, re, bi, de, qi, cp, eje, ewc, dre, cs, cse, fle, pc,
      pcon, ccon, loc⟩ := inv
    constructor
    case jobsRange => exact jr
    case holdRange => exact hr
    case prodSlotRange => exact psr
    case prodBroken => exact pb
    case kCount => exact kc
    case flowBroken => exact fb
    case raiseEq => exact re
    case brokenIff => exact bi
    case doneEq => exact de
    case quitImp =>
      intro hq
      dsimp only
      exact ⟨hc.2.1, hc.1⟩
    case closedProds =>
      intro hw
      dsimp only at hw ⊢
      exact cp hw
    case exitJobsEmpty =>
      intro hq he
      dsimp only at hq
      exact absurd hq (by simp)
    case exitWidgetClosed =>
      intro h1 h2
      dsimp only at h1 h2 ⊢
      exact ewc h1 h2
    case drainEmpty =>
      intro h1 h2 h3 h4
      dsimp only at h1 h2 h3 h4 ⊢
      exact dre h1 h2 h3 h4
    case capSum => exact cs
    case capSumEq =>
      intro hq hd
      dsimp only at hq
      exact absurd hq (by simp)
    case flowLenEq =>
      intro hd
      dsimp only at hd ⊢
      exact fle hd
    case prodCap => exact pc
    case pConserve => exact pcon
    case cConserve => exact ccon
    case locate =>
      intro hb h1 h2
      dsimp only at hb h1 h2 ⊢
      exact loc hb h1 h2
  case isFalse =>
    exact absurd h (by simp)

/-- Invariant preservation along any single step. -/
theorem inv_step (cfg cfg2 : Config) (l : Label) (h : step cfg l = some cfg2)
    (inv : Inv cfg) : Inv cfg2 := by
  cases l with
  | claim => exact inv_claim cfg cfg2 h inv
  | pexitJobs => exact inv_pexitJobs cfg cfg2 h inv
  | pexitQuit j => exact inv_pexitQuit cfg cfg2 j h inv
  | push j => exact inv_push cfg cfg2 j h inv
  | closeWidget => exact inv_closeWidget cfg cfg2 h inv
  | take => exact inv_take cfg cfg2 h inv
  | cexitDrain => exact inv_cexitDrain cfg cfg2 h inv
  | cexitDone j => exact inv_cexitDone cfg cfg2 j h inv
  | consume j => exact inv_consume cfg cfg2 j h inv
  | coordQuit => exact inv_coordQuit cfg cfg2 h inv

/-- Invariant preservation along any schedule. -/
theorem inv_run (tr : List Label) (cfg cfg2 : Config) (h : run cfg tr = some cfg2)
    (inv : Inv cfg) : Inv cfg2 := by
  induction tr generalizing cfg with
  | nil =>
    simp only [run] at h
    cases h
    exact inv
  | cons l ls ih =>
    simp only [run] at h
    split at h
    case _ mid heq =>
      exact ih mid h (inv_step cfg mid l heq inv)
    case _ => exact absurd h (by simp)

/-- Every configuration reachable from the initial one satisfies `Inv`. -/
theorem inv_reachable (total nP nC : Nat) (k : Int) (tr : List Label) (cfg : Config)
    (h : run (initConfig total nP nC k) tr = some cfg) : Inv cfg :=
  inv_run tr (initConfig total nP nC k) cfg h (inv_init total nP nC k)

/-- The four run parameters are never modified by any transition. -/
theorem step_params (cfg cfg2 : Config) (l : Label) (h : step cfg l = some cfg2) :
    cfg2.total = cfg.total ∧ cfg2.nP = cfg.nP ∧ cfg2.nC = cfg.nC
      ∧ cfg2.numKth = cfg.numKth := by
  cases l with
  | claim =>
    simp only [step] at h
    split at h
    case _ => cases h; exact ⟨rfl, rfl, rfl, rfl⟩
    case _ => exact absurd h (by simp)
  | pexitJobs =>
    simp only [step] at h
    split at h
    case _ => cases h; exact ⟨rfl, rfl, rfl, rfl⟩
    case _ => exact absurd h (by simp)
  | pexitQuit j =>
    simp only [step] at h
    split at h
    case _ => cases h; exact ⟨rfl, rfl, rfl, rfl⟩
    case _ => exact absurd h (by simp)
  | push j =>
    simp only [step] at h
    split at h
    case _ =>
      split at h
      · cases h; exact ⟨rfl, rfl, rfl, rfl⟩
      · exact absurd h (by simp)
    case _ => exact absurd h (by simp)
  | closeWidget =>
    simp only [step] at h
    split at h
    case _ => cases h; exact ⟨rfl, rfl, rfl, rfl⟩
    case _ => exact absurd h (by simp)
  | take =>
    simp only [step] at h
    split at h
    case _ => cases h; exact ⟨rfl, rfl, rfl, rfl⟩
    case _ => exact absurd h (by simp)
  | cexitDrain =>
    simp only [step] at h
    split at h
    case _ => cases h; exact ⟨rfl, rfl, rfl, rfl⟩
    case _ => exact absurd h (by simp)
  | cexitDone j =>
    simp only [step] at h
    split at h
    case _ => cases h; exact ⟨rfl, rfl, rfl, rfl⟩
    case _ => exact absurd h (by simp)
  | consume j =>
    simp only [step] at h
    split at h
    case _ =>
      split at h
      · cases h; exact ⟨rfl, rfl, rfl, rfl⟩
      · cases h; exact ⟨rfl, rfl, rfl, rfl⟩
    case _ => exact absurd h (by simp)
  | coordQuit =>
    simp only [step] at h
    split at h
    case isTrue => cases h; exact ⟨rfl, rfl, rfl, rfl⟩
    case isFalse => exact absurd h (by simp)

theorem run_params (tr : List Label) (cfg cfg2 : Config) (h : run cfg tr = some cfg2) :
    cfg2.total = cfg.total ∧ cfg2.nP = cfg.nP ∧ cfg2.nC = cfg.nC
      ∧ cfg2.numKth = cfg.numKth := by
  induction tr generalizing cfg with
  | nil =>
    simp only [run] at h
    cases h
    exact ⟨rfl, rfl, rfl, rfl⟩
  | cons l ls ih =>
    simp only [run] at h
    split at h
    case _ mid heq =>
      obtain ⟨a1, a2, a3, a4⟩ := ih mid h
      obtain ⟨b1, b2, b3, b4⟩ := step_params cfg mid l heq
      exact ⟨a1.trans b1, a2.trans b2, a3.trans b3, a4.trans b4⟩
    case _ => exact absurd h (by simp)

/-- What a configuration in which no transition is enabled must look like. -/
theorem stuck_properties (cfg : Config) (inv : Inv cfg) (hs : stuckB cfg = true) :
    cfg.pReady = 0 ∧ cfg.pHold = [] ∧ cfg.widgetClosed = true ∧ cfg.cReady = 0 ∧
    cfg.cHold = [] ∧ cfg.pExited = cfg.nP ∧ cfg.cExited = cfg.nC ∧
    (0 < cfg.numKth → cfg.brokenClosed = true → cfg.quitClosed = true) := by
  simp [stuckB] at hs
  obtain ⟨⟨⟨⟨⟨⟨⟨⟨⟨e1, e2⟩, e3⟩, e4⟩, e5⟩, e6⟩, e7⟩, e8⟩, e9⟩, e10⟩ := hs
  have hpReady : cfg.pReady = 0 := by
    rcases e1 with h | h
    · exact h
    · rcases e2 with h2 | h2
      · exact h2
      · exact absurd h h2
  have hpHold : cfg.pHold = [] := by
    rcases e4 with h | h
    · rcases h with h | h
      · exact h
      · rcases e3 with h2 | h2
        · exact h2
        · rw [h] at h2
          exact absurd h2 (by simp)
    · have hcs := inv.capSum
      have : cfg.pHold.length = 0 := by omega
      exact List.length_eq_zero.mp this
  have hwc : cfg.widgetClosed = true := by
    rcases e5 with h | h
    · rcases h with h | h
      · exact absurd hpReady h
      · exact absurd hpHold h
    · exact h
  have hcReady : cfg.cReady = 0 := by
    rcases e6 with h | h
    · exact h
    · rcases e7 with h2 | h2
      · rcases h2 with h3 | h3
        · exact h3
        · exact absurd h h3
      · rw [hwc] at h2
        exact absurd h2 (by simp)
  have hcHold : cfg.cHold = [] := by
    rcases e8 with h | h
    · exact h
    · rcases e9 with h2 | h2
      · exact h2
      · rw [h] at h2
        exact absurd h2 (by simp)
  have hpE : cfg.pExited = cfg.nP := by
    have := inv.pConserve
    rw [hpHold] at this
    simp at this
    omega
  have hcE : cfg.cExited = cfg.nC := by
    have := inv.cConserve
    rw [hcHold] at this
    simp at this
    omega
  refine ⟨hpReady, hpHold, hwc, hcReady, hcHold, hpE, hcE, ?_⟩
  intro hk hb
  rcases e10 with h | h
  · rcases h with h | h
    · omega
    · rw [hb] at h
      exact absurd h (by simp)
  · exact h

/-- Deadlock freedom towards the broken signal: when the defect index is in
range and both pools are nonempty, a run can only come to rest after the
broken widget has been consumed and `brokenWidgetChannel` closed. -/
theorem stuck_brokenClosed (cfg : Config) (inv : Inv cfg) (hs : stuckB cfg = true)
    (hp : 1 ≤ cfg.nP) (hc : 1 ≤ cfg.nC) (h1 : 1 ≤ cfg.numKth)
    (h2 : cfg.numKth ≤ (cfg.total : Int)) : cfg.brokenClosed = true := by
  obtain ⟨hpReady, hpHold, hwc, hcReady, hcHold, hpE, hcE, hqq⟩ :=
    stuck_properties cfg inv hs
  cases hbb : cfg.brokenClosed
  · exfalso
    have hdone : cfg.doneClosed = false := by
      rw [inv.doneEq, hbb]
    have hquit : cfg.quitClosed = false := by
      cases hq : cfg.quitClosed
      · rfl
      · have := (inv.quitImp hq).1
        rw [hbb] at this
        exact absurd this (by simp)
    have hjobs : cfg.jobs = [] := by
      refine inv.exitJobsEmpty hquit ?_
      omega
    have hbuf : cfg.buf = [] := by
      refine inv.drainEmpty hdone hcReady hcHold ?_
      omega
    have hloc := inv.locate hbb h1 h2
    rw [hjobs, hpHold, hbuf, hcHold] at hloc
    simp [countK, countBroken] at hloc
  · rfl

/-- A widget with `broken = true` can only be produced when the defect index
lies in `[1, totalUnits]`; otherwise the production history is clean. -/
theorem no_broken_out_of_range (cfg : Config) (inv : Inv cfg)
    (hk : cfg.numKth ≤ 0 ∨ (cfg.total : Int) < cfg.numKth) :
    countBroken cfg.producedList = 0 := by
  rw [countBroken]
  rw [List.countP_eq_zero]
  intro w hw
  have h1 := inv.prodSlotRange w hw
  have h2 := inv.prodBroken w hw
  simp only [h2]
  simp only [decide_eq_true_eq]
  intro hcontra
  rcases hk with h | h <;> omega

/-! ### Claim theorems for the coordination pipeline -/

/-- C1: in every run and under every scheduling, each Unit pushed to the
output queue by a producer that claimed job slot `i` has
`broken = (i == defectIndex)`; the flag is fixed at creation time from the
slot number recorded in the widget and does not depend on the schedule. -/
theorem claim1_broken_iff_slot (total nP nC : Nat) (k : Int) (tr : List Label)
    (cfg : Config) (h : run (initConfig total nP nC k) tr = some cfg) :
    ∀ w ∈ cfg.producedList, w.broken = decide ((w.slot : Int) = k) := by
  have inv := inv_reachable total nP nC k tr cfg h
  have hpk := (run_params tr _ cfg h).2.2.2
  simp only [initConfig] at hpk
  intro w hw
  have hb := inv.prodBroken w hw
  rw [hb, hpk]

/-- C2: for every `totalUnits ≥ 0` and `defectIndex ≤ 0` (worker pools of the
configured positive sizes), every schedule halts within a bounded number of
steps, and every final (fully blocked) state is natural completion with
exactly `totalUnits` units produced, exactly `totalUnits` consumed, and zero
broken units reported. -/
theorem claim2_no_defect_full_run (total nP nC : Nat) (k : Int) (tr : List Label)
    (cfg : Config) (hk : k ≤ 0) (hp : 1 ≤ nP) (hc : 1 ≤ nC)
    (h : run (initConfig total nP nC k) tr = some cfg) :
    tr.length ≤ 7 * total + nP + nC + 4 ∧
    (stuckB cfg = true →
      cfg.producedList.length = total ∧ cfg.consumedList.length = total ∧
      countBroken cfg.consumedList = 0 ∧ completedB cfg = true) := by
  have inv := inv_reachable total nP nC k tr cfg h
  obtain ⟨hpt, hpp, hpc, hpk⟩ := run_params tr _ cfg h
  simp only [initConfig] at hpt hpp hpc hpk
  constructor
  · have hb := run_length_le tr _ cfg h
    rw [measure_init] at hb
    omega
  · intro hs
    obtain ⟨hpReady, hpHold, hwc, hcReady, hcHold, hpE, hcE, hqq⟩ :=
      stuck_properties cfg inv hs
    have hnb : countBroken cfg.producedList = 0 :=
      no_broken_out_of_range cfg inv (Or.inl (by omega))
    have hcb : countBroken cfg.consumedList = 0 := by
      have := inv.flowBroken
      omega
    have hbroken : cfg.brokenClosed = false := by
      cases hbb : cfg.brokenClosed
      · rfl
      · have h1 := inv.brokenIff.mp hbb
        have h2 := inv.raiseEq
        omega
    have hdone : cfg.doneClosed = false := by
      rw [inv.doneEq, hbroken]
    have hquit : cfg.quitClosed = false := by
      cases hq : cfg.quitClosed
      · rfl
      · have := (inv.quitImp hq).1
        rw [hbroken] at this
        exact absurd this (by simp)
    have hjobs : cfg.jobs = [] := inv.exitJobsEmpty hquit (by omega)
    have hbuf : cfg.buf = [] := inv.drainEmpty hdone hcReady hcHold (by omega)
    have hsum := inv.capSumEq hquit hdone
    rw [hjobs, hpHold, hbuf, hcHold] at hsum
    simp only [List.length_nil] at hsum
    have hflow := inv.flowLenEq hdone
    rw [hbuf, hcHold] at hflow
    simp only [List.length_nil] at hflow
    refine ⟨by omega, by omega, hcb, ?_⟩
    have hknn : cfg.numKth ≤ 0 := by omega
    simp [completedB, hpE, hcE, hwc, hknn]

/-- C3 (amended): for every `1 ≤ defectIndex ≤ totalUnits` with positive
worker pools, every schedule halts within a bounded number of steps, and
every final state has the broken signal raised exactly once and between `1`
and `totalUnits` units produced, with the whole pipeline properly completed.
(The original lower bound `defectIndex ≤ produced` fails, see the
counterexample.) -/
theorem claim3_amended_defect_run (total nP nC : Nat) (k : Int) (tr : List Label)
    (cfg : Config) (hk1 : 1 ≤ k) (hk2 : k ≤ (total : Int)) (hp : 1 ≤ nP)
    (hc : 1 ≤ nC) (h : run (initConfig total nP nC k) tr = some cfg) :
    tr.length ≤ 7 * total + nP + nC + 4 ∧
    (stuckB cfg = true →
      cfg.raiseAttempts = 1 ∧ 1 ≤ cfg.producedList.length ∧
      cfg.producedList.length ≤ total ∧ completedB cfg = true) := by
  have inv := inv_reachable total nP nC k tr cfg h
  obtain ⟨hpt, hpp, hpc, hpk⟩ := run_params tr _ cfg h
  simp only [initConfig] at hpt hpp hpc hpk
  constructor
  · have hb := run_length_le tr _ cfg h
    rw [measure_init] at hb
    omega
  · intro hs
    obtain ⟨hpReady, hpHold, hwc, hcReady, hcHold, hpE, hcE, hqq⟩ :=
      stuck_properties cfg inv hs
    have hb : cfg.brokenClosed = true :=
      stuck_brokenClosed cfg inv hs (by omega) (by omega) (by omega) (by omega)
    have hr1 : 1 ≤ cfg.raiseAttempts := inv.brokenIff.mp hb
    have hr2 : cfg.raiseAttempts ≤ 1 := by
      have h1 := inv.raiseEq
      have h2 := inv.flowBroken
      have h3 := inv.kCount
      omega
    have hprodpos : 1 ≤ cfg.producedList.length := by
      have h1 := inv.raiseEq
      have h2 := inv.flowBroken
      have h3 : countBroken cfg.producedList ≤ cfg.producedList.length :=
        List.countP_le_length _
      omega
    have hprodle : cfg.producedList.length ≤ total := by
      have := inv.prodCap
      omega
    have hquit : cfg.quitClosed = true := hqq (by omega) hb
    refine ⟨by omega, hprodpos, hprodle, ?_⟩
    simp [completedB, hpE, hcE, hwc, hquit]

/-- C4 (divergence witness): when `defectIndex > totalUnits`, no unit is
ever marked broken — but then the coordinator, having seen `numKth > 0`,
stays blocked on `<-brokenWidgetChannel` forever: no reachable configuration
of such a run is ever a completed one, so the run can never terminate via
natural completion as the spec requires. -/
theorem claim4_out_of_range_never_completes (total nP nC : Nat) (k : Int)
    (tr : List Label) (cfg : Config) (hk : (total : Int) < k)
    (h : run (initConfig total nP nC k) tr = some cfg) :
    countBroken cfg.producedList = 0 ∧ completedB cfg = false := by
  have inv := inv_reachable total nP nC k tr cfg h
  obtain ⟨hpt, hpp, hpc, hpk⟩ := run_params tr _ cfg h
  simp only [initConfig] at hpt hpp hpc hpk
  have hnb : countBroken cfg.producedList = 0 :=
    no_broken_out_of_range cfg inv (Or.inr (by omega))
  have hcb : countBroken cfg.consumedList = 0 := by
    have := inv.flowBroken
    omega
  have hbroken : cfg.brokenClosed = false := by
    cases hbb : cfg.brokenClosed
    · rfl
    · have h1 := inv.brokenIff.mp hbb
      have h2 := inv.raiseEq
      omega
  have hquit : cfg.quitClosed = false := by
    cases hq : cfg.quitClosed
    · rfl
    · have := (inv.quitImp hq).1
      rw [hbroken] at this
      exact absurd this (by simp)
  have hknn : ¬ cfg.numKth ≤ 0 := by omega
  refine ⟨hnb, ?_⟩
  simp [completedB, hquit, hknn]

/-- C6 (divergence witness): with `totalUnits = 0` nothing is ever produced
or consumed, and when additionally `defectIndex ≥ 1` the coordinator blocks
forever on `<-brokenWidgetChannel`: no reachable configuration is completed,
contradicting the claimed immediate natural completion regardless of flags. -/
theorem claim6_zero_units (nP nC : Nat) (k : Int) (tr : List Label) (cfg : Config)
    (h : run (initConfig 0 nP nC k) tr = some cfg) :
    cfg.producedList = [] ∧ cfg.consumedList = [] ∧
    (1 ≤ k → completedB cfg = false) := by
  have inv := inv_reachable 0 nP nC k tr cfg h
  obtain ⟨hpt, hpp, hpc, hpk⟩ := run_params tr _ cfg h
  simp only [initConfig] at hpt hpp hpc hpk
  have hprod : cfg.producedList = [] := by
    have h1 := inv.prodCap
    have h2 : cfg.producedList.length = 0 := by omega
    exact List.length_eq_zero.mp h2
  have hcons : cfg.consumedList = [] := by
    have h1 := inv.capSum
    have h2 : cfg.consumedList.length = 0 := by omega
    exact List.length_eq_zero.mp h2
  refine ⟨hprod, hcons, ?_⟩
  intro hk1
  have hcb : countBroken cfg.consumedList = 0 := by
    rw [hcons]
    rfl
  have hbroken : cfg.brokenClosed = false := by
    cases hbb : cfg.brokenClosed
    · rfl
    · have h1 := inv.brokenIff.mp hbb
      have h2 := inv.raiseEq
      omega
  have hquit : cfg.quitClosed = false := by
    cases hq : cfg.quitClosed
    · rfl
    · have := (inv.quitImp hq).1
      rw [hbroken] at this
      exact absurd this (by simp)
  have hknn : ¬ cfg.numKth ≤ 0 := by omega
  simp [completedB, hquit, hknn]

/-- C7: the output widget channel is closed only once every producer worker
has exited, and once it is closed no `push` transition is enabled for any
producer ever again. -/
theorem claim7_close_after_all_producers (total nP nC : Nat) (k : Int)
    (tr : List Label) (cfg : Config)
    (h : run (initConfig total nP nC k) tr = some cfg)
    (hw : cfg.widgetClosed = true) :
    cfg.pExited = nP ∧ ∀ j, step cfg (Label.push j) = none := by
  have inv := inv_reachable total nP nC k tr cfg h
  have hpp := (run_params tr _ cfg h).2.1
  simp only [initConfig] at hpp
  have hcp := inv.closedProds hw
  constructor
  · have hcons := inv.pConserve
    rw [hcp.2] at hcons
    simp only [List.length_nil] at hcons
    omega
  · intro j
    simp only [step, hcp.2]
    cases j <;> rfl

/-- Go's `close` builtin applied to `brokenWidgetChannel` /`doneChannel`
(src/unnamed/part_000, `consumptionLine`): closing a channel that is still
open succeeds and marks it closed; closing an already-closed channel is the
runtime panic "close of closed channel", not a no-op. -/
def closeChan (closed : Bool) : Except String Bool :=
  if closed then Except.error "close of closed channel" else Except.ok true

/-- C5 (counterexample): the raise transition implemented by `close` is not
idempotent — a second attempt on the same already-closed channel is a Go
runtime panic, not a no-op. -/
theorem claim5_counterexample_double_close_panics :
    closeChan false = Except.ok true ∧
    closeChan true = Except.error "close of closed channel" :=
  ⟨rfl, rfl⟩

/-- C5 (amended): in every run and under every scheduling the raise
transition (`close(brokenWidgetChannel)`) is attempted at most once — each
widget is consumed at most once and at most one widget per run is broken —
so the non-idempotent `close` is never actually reached twice and no run
crashes or deadlocks because of it. -/
theorem claim5_amended_raise_at_most_once (total nP nC : Nat) (k : Int)
    (tr : List Label) (cfg : Config)
    (h : run (initConfig total nP nC k) tr = some cfg) :
    cfg.raiseAttempts ≤ 1 ∧
    (cfg.raiseAttempts ≤ 0 → closeChan cfg.brokenClosed ≠
      Except.error "close of closed channel") := by
  have inv := inv_reachable total nP nC k tr cfg h
  have h1 := inv.raiseEq
  have h2 := inv.flowBroken
  have h3 := inv.kCount
  constructor
  · omega
  · intro hr
    have hbroken : cfg.brokenClosed = false := by
      cases hbb : cfg.brokenClosed
      · rfl
      · have := inv.brokenIff.mp hbb
        omega
    rw [hbroken]
    simp [closeChan]

/-! ### The identifier generator (`idMaker`, identical in both files) -/

/-- The Go constant `ASCII = "abcdefghijklmnopqrstuvxyz0123456789"`.
Note that the source string skips the letter between `v` and `x`, so it has
25 letters plus 10 digits — 35 characters. -/
def ASCII : String := "abcdefghijklmnopqrstuvxyz0123456789"

/-- The characters of `ASCII` as a list. -/
def asciiChars : List Char := ASCII.toList

/-- The Go constant `ID_LENGTH = 32`. -/
def ID_LENGTH : Nat := 32

/-- `idMaker`: for `i = 0 .. ID_LENGTH-1` it writes `-` when
`i == ID_LENGTH / 2` and otherwise `ASCII[rand.Intn(len(ASCII))]`.  The
random source is modelled as the stream `r` of successive `Intn` results;
`Intn(n)` always returns a value in `[0, n)`, hence `Fin asciiChars.length`. -/
def idMaker (r : Nat → Fin asciiChars.length) : List Char :=
  (List.range ID_LENGTH).map
    (fun i => if i = ID_LENGTH / 2 then '-' else asciiChars.get (r i))

theorem countP_congr_mem {α : Type} {p q : α → Bool} :
    ∀ {l : List α}, (∀ a ∈ l, p a = q a) → l.countP p = l.countP q := by
  intro l
  induction l with
  | nil => intro _; rfl
  | cons a l ih =>
    intro h
    rw [List.countP_cons, List.countP_cons, h a (List.mem_cons_self a l),
      ih (fun b hb => h b (List.mem_cons_of_mem a hb))]

/-- No character of the `ASCII` alphabet is the separator. -/
theorem asciiChars_no_dash : ∀ v : Fin asciiChars.length,
    (asciiChars.get v == '-') = false := by decide

/-- C8 (amended): every token has length exactly 32; the character at index
16 is the unique `-` in the token; every other position holds a character
of the 35-character alphabet (lowercase letters without the one between `v`
and `x`, plus digits).  So the shape is 16 alphabet characters, `-`, then
15 alphabet characters. -/
theorem claim8_amended_token_shape (r : Nat → Fin asciiChars.length) :
    (idMaker r).length = 32 ∧
    (idMaker r).get? 16 = some '-' ∧
    (idMaker r).countP (fun c => c == '-') = 1 ∧
    (∀ i : Nat, i < 32 → ¬ i = 16 →
      (idMaker r).get? i = some (asciiChars.get (r i)) ∧
      asciiChars.get (r i) ∈ asciiChars) := by
  refine ⟨?_, ?_, ?_, ?_⟩
  · simp [idMaker, ID_LENGTH]
  · rw [idMaker, List.get?_map, List.get?_range (by norm_num [ID_LENGTH])]
    simp [ID_LENGTH]
  · rw [idMaker, List.countP_map]
    have hc : ∀ i ∈ List.range ID_LENGTH,
        ((fun c => c == '-') ∘
          (fun i => if i = ID_LENGTH / 2 then '-' else asciiChars.get (r i))) i
          = (fun i : Nat => i == 16) i := by
      intro i _
      by_cases hi : i = ID_LENGTH / 2
      · simp [hi, ID_LENGTH]
      · simp only [Function.comp, if_neg hi, asciiChars_no_dash (r i)]
        have : ¬ i = 16 := by
          simpa [ID_LENGTH] using hi
        simp [this]
    rw [countP_congr_mem hc]
    decide
  · intro i h1 h2
    constructor
    · rw [idMaker, List.get?_map, List.get?_range (by simpa [ID_LENGTH] using h1)]
      have hne : ¬ i = ID_LENGTH / 2 := by simpa [ID_LENGTH] using h2
      simp [hne]
    · exact List.get_mem _ _ _

/-- A fixed random stream for evaluating the generator at a concrete input. -/
def r0 : Nat → Fin asciiChars.length := fun _ => ⟨0, by decide⟩

/-- C8 (counterexample): the claim's alphabet "all lowercase letters plus
digits" and its shape "16 alphanumeric characters, then `-`, then 16
alphanumeric characters" are both wrong on the code: the letter `w` does
not occur in the `ASCII` constant, and a token has total length 32 = 16 +
1 + 15 (15 characters after the separator, not 16). -/
theorem claim8_counterexample :
    asciiChars.count 'w' = 0 ∧ 'v' ∈ asciiChars ∧ 'x' ∈ asciiChars ∧
    (idMaker r0).length = 32 ∧ ((idMaker r0).drop 17).length = 15 ∧
    ¬ (idMaker r0).length = 16 + 1 + 16 := by decide

/-! ### C9: the counter-based variant of src/main.go -/

/-- Modelled bool protocol of `widgetProductionLine` (src/main.go).  The
initialisation goroutine sends `numKth == 0` as bool number 0
(`if numKth == 0 { brokenWidgetChannel <- true } else { ... <- false }`);
the manager loop, after counting `j` productions and `j` consumptions,
sends `productionCounter == numKth`, i.e. `j == numKth`, as bool number
`j`.  Every `produce` call first receives exactly one bool from
`brokenWidgetChannel` and uses it as the widget's broken flag; bool `j` can
only be sent after production `j` was counted, so production number `p`
(1-based) consumes bool number `p - 1`. -/
def mainBoolSent (numKth : Int) (n : Nat) : Bool :=
  if n = 0 then decide (numKth = 0) else decide ((n : Int) = numKth)

/-- Broken flag the counter-based variant gives the `p`-th produced widget
(1-based production order) for CLI flag value `kFlag`; `main` passes
`*numKth - 1` to `widgetProductionLine`. -/
def counterVariantBroken (kFlag : Int) (p : Nat) : Bool :=
  mainBoolSent (kFlag - 1) (p - 1)

/-- The counter-based variant marks exactly the `kFlag`-th widget in
production order. -/
theorem counterVariantBroken_eq (kFlag : Int) (p : Nat) (hp : 1 ≤ p) :
    counterVariantBroken kFlag p = decide ((p : Int) = kFlag) := by
  cases p with
  | zero => omega
  | succ n =>
    simp only [counterVariantBroken, mainBoolSent, Nat.add_sub_cancel]
    by_cases hn : n = 0
    · subst hn
      rw [if_pos rfl, decide_eq_decide]
      push_cast
      omega
    · rw [if_neg hn, decide_eq_decide]
      push_cast
      omega

/-- A schedule of the slot-based pipeline (`totalUnits = 2`,
`producers = 2`, `consumers = 1`, `defectIndex = 1`) in which producer A
claims slot 1 and stalls while producer B claims slot 2 and pushes first. -/
def c9Schedule : List Label := [Label.claim, Label.claim, Label.push 0]

/-- C9: the counter-based implementation (src/main.go) and the slot-based
one (src/unnamed/part_000) are not equivalent.  With `totalUnits = 2` and
`defectIndex = 1` (in range), under `c9Schedule` the first unit entering
the output queue is the one produced from slot 2 and it is NOT broken in
the slot-based implementation — while the counter-based variant marks
production number 1, that same first unit, as broken
(`counterVariantBroken 1 1 = true`).  The unit the counter variant marks
therefore comes from slot 2, not from slot `defectIndex = 1`. -/
theorem claim9_variants_not_equivalent :
    ((1 : Int) ≤ 1 ∧ (1 : Int) ≤ (2 : Nat)) ∧
    (run (initConfig 2 2 1 1) c9Schedule).map
      (fun c => c.producedList.get? 0) = some (some ⟨2, false⟩) ∧
    counterVariantBroken 1 1 = true ∧
    ¬ (2 : Nat) = 1 := by decide

/-! ### C10: channel allocation with a negative unit count -/

/-- Go's `make(chan T, size)`: a negative buffer size is the runtime panic
`makechan: size out of range`. -/
def makeChan (size : Int) : Except String Unit :=
  if size < 0 then Except.error "makechan: size out of range" else Except.ok ()

/-- The channel allocations of `WidgetProductionConsumptionLine` in source
order — `jobChannel := make(chan int, numWidgets)`, `widgetChannel :=
make(chan Widget, numWidgets)`, then the unbuffered `quitChannel` and
`brokenWidgetChannel` — followed, on success, by prefilling the job queue
and starting both pools, which yields the initial configuration of the
transition system.  The name tables built before this point allocate no
channels and cannot fault; negative producer/consumer counts just leave
their tables empty. -/
def lineSetup (numWidgets numProducers numConsumers numKth : Int) :
    Except String Config := do
  let _ ← makeChan numWidgets
  let _ ← makeChan numWidgets
  let _ ← makeChan 0
  let _ ← makeChan 0
  pure (initConfig numWidgets.toNat numProducers.toNat numConsumers.toNat numKth)

/-- For a non-negative unit count the setup succeeds and produces the
initial configuration used by the pipeline theorems. -/
theorem lineSetup_nonneg (n p c k : Int) (hn : 0 ≤ n) :
    lineSetup n p c k = Except.ok (initConfig n.toNat p.toNat c.toNat k) := by
  have h1 : ¬ n < 0 := by omega
  have h2 : ¬ (0 : Int) < 0 := by omega
  simp only [lineSetup, makeChan, if_neg h1, if_neg h2]
  rfl

/-- C10: for every negative `totalUnits` the very first channel allocation
panics with `makechan: size out of range`, before any worker goroutine is
started — so a negative unit count is a hard fault, never the zero-work
natural-completion path. -/
theorem claim10_negative_units_panic (n p c k : Int) (hn : n < 0) :
    lineSetup n p c k = Except.error "makechan: size out of range" ∧
    ∀ cfg : Config, ¬ lineSetup n p c k = Except.ok cfg := by
  have h1 : lineSetup n p c k = Except.error "makechan: size out of range" := by
    simp only [lineSetup, makeChan, if_pos hn]
    rfl
  refine ⟨h1, ?_⟩
  intro cfg hcontra
  rw [h1] at hcontra
  exact Except.noConfusion hcontra

/-! ### Concrete schedules and witness evaluations -/

def c1Schedule : List Label := [Label.claim, Label.push 0]

def c1Final : Config := (run (initConfig 2 1 1 2) c1Schedule).getD (initConfig 2 1 1 2)

theorem claim1_witness :
    c1Final.producedList = [⟨1, false⟩] ∧
    Widget.broken ⟨1, false⟩ = decide (((1 : Nat) : Int) = 2) :=
  ⟨by decide, claim1_broken_iff_slot 2 1 1 2 c1Schedule c1Final (by decide)
    ⟨1, false⟩ (by decide)⟩

def c2Schedule : List Label :=
  [Label.claim, Label.push 0, Label.pexitJobs, Label.closeWidget, Label.take,
   Label.consume 0, Label.cexitDrain]

def c2Final : Config := (run (initConfig 1 1 1 0) c2Schedule).getD (initConfig 1 1 1 0)

theorem claim2_witness :
    stuckB c2Final = true ∧ c2Final.producedList.length = 1 ∧
    c2Final.consumedList.length = 1 ∧ countBroken c2Final.consumedList = 0 ∧
    completedB c2Final = true := by
  have h := claim2_no_defect_full_run 1 1 1 0 c2Schedule c2Final (by decide)
    (by decide) (by decide) (by decide)
  exact ⟨by decide, (h.2 (by decide)).1, (h.2 (by decide)).2.1,
    (h.2 (by decide)).2.2.1, (h.2 (by decide)).2.2.2⟩

def c3Schedule : List Label :=
  [Label.claim, Label.push 0, Label.take, Label.consume 0, Label.coordQuit,
   Label.pexitJobs, Label.closeWidget]

def c3Final : Config := (run (initConfig 1 1 1 1) c3Schedule).getD (initConfig 1 1 1 1)

theorem claim3_witness :
    stuckB c3Final = true ∧ c3Final.raiseAttempts = 1 ∧
    1 ≤ c3Final.producedList.length ∧ c3Final.producedList.length ≤ 1 ∧
    completedB c3Final = true := by
  have h := claim3_amended_defect_run 1 1 1 1 c3Schedule c3Final (by decide)
    (by decide) (by decide) (by decide) (by decide)
  exact ⟨by decide, (h.2 (by decide)).1, (h.2 (by decide)).2.1,
    (h.2 (by decide)).2.2.1, (h.2 (by decide)).2.2.2⟩

/-- Schedule with two producers, `totalUnits = 2`, `defectIndex = 2`:
producer A claims slot 1 and stalls; producer B claims slot 2, produces the
broken unit, the consumer consumes it, the coordinator closes the quit
channel, and producer A then takes the quit case of its `select` without
ever producing slot 1. -/
def c3cxSchedule : List Label :=
  [Label.claim, Label.claim, Label.push 0, Label.take, Label.consume 0,
   Label.coordQuit, Label.pexitQuit 0, Label.pexitJobs, Label.closeWidget]

def c3cxFinal : Config := (run (initConfig 2 2 1 2) c3cxSchedule).getD (initConfig 2 2 1 2)

/-- C3 (counterexample): a completed run with `totalUnits = 2`,
`defectIndex = 2`, two producers and one consumer in which only one unit
was ever produced — so "number of units actually produced ≥ defectIndex"
is false on the code. -/
theorem claim3_counterexample_fewer_than_defectIndex :
    stuckB c3cxFinal = true ∧ completedB c3cxFinal = true ∧
    c3cxFinal.producedList.length = 1 ∧
    ¬ (2 : Nat) ≤ c3cxFinal.producedList.length := by decide

def c4Schedule : List Label :=
  [Label.claim, Label.push 0, Label.pexitJobs, Label.closeWidget, Label.take,
   Label.consume 0, Label.cexitDrain]

def c4Final : Config := (run (initConfig 1 1 1 2) c4Schedule).getD (initConfig 1 1 1 2)

theorem claim4_witness :
    stuckB c4Final = true ∧ countBroken c4Final.producedList = 0 ∧
    completedB c4Final = false := by
  have h := claim4_out_of_range_never_completes 1 1 1 2 c4Schedule c4Final
    (by decide) (by decide)
  exact ⟨by decide, h.1, h.2⟩

def c5Schedule : List Label :=
  [Label.claim, Label.push 0, Label.take, Label.consume 0]

def c5Final : Config := (run (initConfig 1 1 1 1) c5Schedule).getD (initConfig 1 1 1 1)

theorem claim5_witness :
    c5Final.raiseAttempts = 1 ∧ c5Final.raiseAttempts ≤ 1 := by
  have h := claim5_amended_raise_at_most_once 1 1 1 1 c5Schedule c5Final (by decide)
  exact ⟨by decide, h.1⟩

def c6Schedule : List Label :=
  [Label.pexitJobs, Label.closeWidget, Label.cexitDrain]

def c6Final : Config := (run (initConfig 0 1 1 1) c6Schedule).getD (initConfig 0 1 1 1)

theorem claim6_witness :
    stuckB c6Final = true ∧ c6Final.producedList = [] ∧
    c6Final.consumedList = [] ∧ completedB c6Final = false := by
  have h := claim6_zero_units 1 1 1 c6Schedule c6Final (by decide)
  exact ⟨by decide, h.1, h.2.1, h.2.2 (by decide)⟩

def c7Schedule : List Label :=
  [Label.claim, Label.push 0, Label.pexitJobs, Label.closeWidget]

def c7Final : Config := (run (initConfig 1 1 1 0) c7Schedule).getD (initConfig 1 1 1 0)

theorem claim7_witness :
    c7Final.pExited = 1 ∧ step c7Final (Label.push 0) = none := by
  have h := claim7_close_after_all_producers 1 1 1 0 c7Schedule c7Final
    (by decide) (by decide)
  exact ⟨h.1, h.2 0⟩

theorem claim8_witness :
    (idMaker r0).length = 32 ∧ (idMaker r0).get? 16 = some '-' :=
  ⟨(claim8_amended_token_shape r0).1, (claim8_amended_token_shape r0).2.1⟩

theorem claim10_witness :
    lineSetup (-1) 10 1 (-1) = Except.error "makechan: size out of range" :=
  (claim10_negative_units_panic (-1) 10 1 (-1) (by decide)).1

end WidgetProduction
